import Mathlib

/-!
Verification of the blackhole-py bring-up layer: a shallow embedding of the
tile-grid builder, harvesting detector, firmware uploader, address
alignment/remapping helpers, and the reset poll loop, together with theorems
settling the specification claims about them.

Sources embedded:
  - helpers.py   : align_down
  - main.py      : HARVESTING_NOC_LOCATIONS, shuffle_tensix_harvesting_mask,
                   ARC/CSM telemetry constants
  - device.py    : Harvesting, TileGrid.from_harvesting, Device.get_harvesting,
                   remap_addr / upload_firmware, Device.reset
-/

namespace Blackhole

/-! ### Architecture constants

Constants below are taken from `src/main.py` (the in-repo inline variant of the
telemetry algorithm); `src/device.py` imports the same values from a `configs`
module that is not part of the repository snapshot. -/

def ARC_NOC_BASE : Nat := 0x80000000

def SCRATCH_RAM_13 : Nat := 0x30434

def CSM_START : Nat := 0x10000000

def CSM_END : Nat := 0x1007FFFF

def HARVESTING_NOC_LOCATIONS : List Nat := [1, 16, 2, 15, 3, 14, 4, 13, 5, 12, 6, 11, 7, 10]

/-- Two-MiB TLB window size class (`TLBSize.MiB_2`). -/
def TLBSize_MiB_2 : Nat := 2 * 1024 * 1024

/-! ### helpers.align_down

`align_down(value, alignment)` in `helpers.py` computes
`base = value & ~(alignment - 1)` and returns `(base, value - base)`.
On Python's unbounded integers, `value & ~m` for `value, m ≥ 0` is the
bitwise and-not, i.e. `Nat.ldiff value m`. -/

def align_down (value : Nat) (alignment : Nat) : Nat × Nat :=
  let base := Nat.ldiff value (alignment - 1)
  (base, value - base)

/-! ### device.py : Harvesting and TileGrid.from_harvesting -/

/-- The `Harvesting` dataclass of `device.py`: exactly two disabled tensix
columns (a pair), a single disabled DRAM bank, and the ethernet flag. -/
structure Harvesting where
  tensix_cols : Nat × Nat
  dram_bank : Nat
  all_eth_disabled : Bool
deriving DecidableEq, Repr

/-- The fixed tensix row span `TileGrid.TENSIX_Y = (2, 11)`. -/
def TENSIX_Y : Nat × Nat := (2, 11)

/-- The valid-tensix-column filter of `TileGrid.from_harvesting`:
`[x for x in range(max_x + 1) if x not in dram_cols and x != l2cpu_col and x not in disabled]`
with `dram_cols = (0, 9)`, `l2cpu_col = 8`, `max_x = 16`. -/
def tensix_cols_of (harvesting : Harvesting) : List Nat :=
  (List.range (16 + 1)).filter fun x =>
    !(x == 0 || x == 9) && x != 8 &&
    !(x == harvesting.tensix_cols.1 || x == harvesting.tensix_cols.2)

/-- The run-grouping loop of `TileGrid.from_harvesting`: walking the remaining
columns with the current run `(start, prev)`, closing the run whenever the next
column is not `prev + 1`. -/
def mcast_go (start prev : Nat) : List Nat → List (Nat × Nat)
  | [] => [(start, prev)]
  | x :: xs => if x ≠ prev + 1 then (start, prev) :: mcast_go x x xs else mcast_go start x xs

/-- The multicast x-ranges of `TileGrid.from_harvesting`: empty when there are
no valid columns, otherwise the maximal-run grouping started at the first
column. -/
def tensix_mcast_of (cols : List Nat) : List (Nat × Nat) :=
  match cols with
  | [] => []
  | c :: rest => mcast_go c c rest

/-- Validity of a compute column as the specification words it: a column in
`0..16` that is not a DRAM column (`0`, `9`), not the auxiliary-core column
(`8`), and not one of the two harvested columns. -/
def validCol (harvesting : Harvesting) (x : Nat) : Prop :=
  x ≤ 16 ∧ x ≠ 0 ∧ x ≠ 9 ∧ x ≠ 8 ∧
    x ≠ harvesting.tensix_cols.1 ∧ x ≠ harvesting.tensix_cols.2

instance (h : Harvesting) (x : Nat) : Decidable (validCol h x) := by
  unfold validCol; infer_instance

/-- Bounded, decidable core of the multicast-range partition property for a
disabled-column pair `(a, b)`. -/
def mcastSpecOK (a b : Nat) : Prop :=
  let h : Harvesting := ⟨(a, b), 0, false⟩
  let R := tensix_mcast_of (tensix_cols_of h)
  R.Pairwise (fun p q => p.2 < q.1) ∧
  (∀ p ∈ R, p.1 ≤ p.2 ∧ p.2 < 17 ∧
    (∀ x, x < 17 → p.1 ≤ x → x ≤ p.2 → validCol h x) ∧
    ¬ validCol h (p.1 - 1) ∧ ¬ validCol h (p.2 + 1)) ∧
  (∀ x, x < 17 → (validCol h x ↔ ∃ p ∈ R, p.1 ≤ x ∧ x ≤ p.2))

instance (a b : Nat) : Decidable (mcastSpecOK a b) := by
  unfold mcastSpecOK; infer_instance

/-! ### device.py : Device.get_harvesting

The window reads are abstracted by a memory oracle giving the 32-bit word a
strict unicast read returns at an absolute NoC byte address.  Telemetry tag
numbers and default values are the ones `src/main.py` uses inline;
`src/device.py` reads identical values from the `configs` module that is not
part of the repository snapshot. -/

def TAG_TENSIX_ENABLED : Nat := 34

def DEFAULT_TENSIX_ENABLED : Nat := 0x3FFF

def TAG_ETH_ENABLED : Nat := 35

def DEFAULT_ETH_ENABLED : Nat := 0x3FFF

def TAG_GDDR_ENABLED : Nat := 36

def DEFAULT_GDDR_ENABLED : Nat := 0xFF

/-- Modelled from the spec: `Dram.BANK_COUNT` lives in the missing `configs`
module; the spec's fixed bank table and the 8-bit gddr default mask `0xFF` of
`src/main.py` give 8 memory banks. -/
def BANK_COUNT : Nat := 8

/-- Memory oracle: word returned by a 32-bit read at an absolute address. -/
abbrev Mem := Nat → Nat

inductive HarvestErr where
  | notReady
  | badTensixCount
  | badDramCount
deriving DecidableEq, Repr

/-- The scratch-register read `arc.readi32(Arc.SCRATCH_RAM_13)` through the
window based at `Arc.NOC_BASE`. -/
def telem_ptr (mem : Mem) : Nat := mem (ARC_NOC_BASE + SCRATCH_RAM_13)

/-- The device-not-ready test of `get_harvesting`:
`telem_struct_addr == 0 or (not (Arc.CSM_START <= telem_struct_addr <= Arc.CSM_END))`. -/
def telem_ptr_invalid (p : Nat) : Prop :=
  p = 0 ∨ ¬ (CSM_START ≤ p ∧ p ≤ CSM_END)

instance (p : Nat) : Decidable (telem_ptr_invalid p) := by
  unfold telem_ptr_invalid; infer_instance

/-- Window-aligned base of the telemetry pointer (`align_down(..., MiB_2)`). -/
def csm_base_of (mem : Mem) : Nat := (align_down (telem_ptr mem) TLBSize_MiB_2).1

/-- In-window byte offset of the telemetry pointer. -/
def csm_offset_of (mem : Mem) : Nat := (align_down (telem_ptr mem) TLBSize_MiB_2).2

/-- Embeds `entry_count = arc.readi32(csm_offset + 4)` after rebasing the window. -/
def entry_count_of (mem : Mem) : Nat :=
  mem (csm_base_of mem + (csm_offset_of mem + 4))

/-- The `(tag, offset)` words at `tags_base = csm_offset + 8`: tag in the low
16 bits, data offset (in words) in the high 16 bits. -/
def tag_entries_of (mem : Mem) : List (Nat × Nat) :=
  (List.range (entry_count_of mem)).map fun i =>
    let w := mem (csm_base_of mem + (csm_offset_of mem + 8 + i * 4))
    (w &&& 0xFFFF, (w >>> 16) &&& 0xFFFF)

/-- Embeds `read_tag(tag, default)`: the Python dict keeps the last entry for a
repeated tag, hence the lookup on the reversed entry list; absent tags give
the default; present tags read the word at `data_base + off * 4` with
`data_base = csm_offset + 8 + entry_count * 4`. -/
def read_tag (mem : Mem) (tag default : Nat) : Nat :=
  match (tag_entries_of mem).reverse.lookup tag with
  | none => default
  | some off =>
      mem (csm_base_of mem + (csm_offset_of mem + 8 + entry_count_of mem * 4 + off * 4))

def tensix_enabled_of (mem : Mem) : Nat :=
  read_tag mem TAG_TENSIX_ENABLED DEFAULT_TENSIX_ENABLED

def eth_enabled_of (mem : Mem) : Nat :=
  read_tag mem TAG_ETH_ENABLED DEFAULT_ETH_ENABLED

def gddr_enabled_of (mem : Mem) : Nat :=
  read_tag mem TAG_GDDR_ENABLED DEFAULT_GDDR_ENABLED

/-- Embeds `sorted(loc for pos, loc in enumerate(HARVESTING_NOC_LOCATIONS) if
((tensix_enabled >> pos) & 1) == 0)`. -/
def tensix_disabled (tensix_enabled : Nat) : List Nat :=
  List.insertionSort (· ≤ ·)
    (HARVESTING_NOC_LOCATIONS.enum.filterMap fun pl =>
      if (tensix_enabled >>> pl.1) &&& 1 == 0 then some pl.2 else none)

/-- Embeds `[bank for bank in range(Dram.BANK_COUNT) if ((gddr_enabled >> bank) & 1) == 0]`. -/
def dram_disabled (gddr_enabled : Nat) : List Nat :=
  (List.range BANK_COUNT).filter fun bank => (gddr_enabled >>> bank) &&& 1 == 0

/-- The tail of `get_harvesting`: the two count assertions followed by the
construction of the `Harvesting` record (`tensix_cols=(tensix_off[0],
tensix_off[1])`, `dram_bank=dram_off[0]`,
`all_eth_disabled=(eth_enabled & DEFAULT_ETH_ENABLED) == 0`). -/
def finish (tensix_off dram_off : List Nat) (eth_enabled : Nat) :
    Except HarvestErr Harvesting :=
  if htc : tensix_off.length = 2 then
    if hdc : dram_off.length = 1 then
      .ok { tensix_cols := (tensix_off.get ⟨0, by omega⟩, tensix_off.get ⟨1, by omega⟩),
            dram_bank := dram_off.get ⟨0, by omega⟩,
            all_eth_disabled := (eth_enabled &&& DEFAULT_ETH_ENABLED) == 0 }
    else .error .badDramCount
  else .error .badTensixCount

/-- Embeds `Device.get_harvesting`: pointer validation, telemetry parse, mask
inversion, count assertions, record construction. -/
def get_harvesting (mem : Mem) : Except HarvestErr Harvesting :=
  if telem_ptr_invalid (telem_ptr mem) then .error .notReady
  else
    finish (tensix_disabled (tensix_enabled_of mem))
      (dram_disabled (gddr_enabled_of mem)) (eth_enabled_of mem)

/-- A concrete telemetry image: pointer `CSM_START`, two table entries
(tag 34 at data word 0, tag 36 at data word 1), compute mask `0x3DEF`
(bits 4 and 9 cleared), gddr mask `0xFE` (bank 0 cleared). -/
def memWitness : Mem := fun a =>
  if a = ARC_NOC_BASE + SCRATCH_RAM_13 then CSM_START
  else if a = CSM_START + 4 then 2
  else if a = CSM_START + 8 then 34 + 0 * 65536
  else if a = CSM_START + 12 then 36 + 1 * 65536
  else if a = CSM_START + 16 then 0x3DEF
  else if a = CSM_START + 20 then 0xFE
  else 0

/-! ### main.py : shuffle_tensix_harvesting_mask -/

/-- Embeds `SORTED_LOCATIONS = sorted(HARVESTING_NOC_LOCATIONS)`. -/
def SORTED_LOCATIONS : List Nat := List.insertionSort (· ≤ ·) HARVESTING_NOC_LOCATIONS

/-- Embeds `HARVESTING_INDEX_BY_LOC[loc]`: index of `loc` in the sorted location
list. -/
def HARVESTING_INDEX_BY_LOC (loc : Nat) : Nat := SORTED_LOCATIONS.indexOf loc

/-- Embeds `shuffle_tensix_harvesting_mask(raw_mask)`: for each set bit at physical
position `pos`, set the bit at the logical index of the corresponding NoC
location. -/
def shuffle_tensix_harvesting_mask (raw_mask : Nat) : Nat :=
  HARVESTING_NOC_LOCATIONS.enum.foldl
    (fun new_mask pl =>
      if raw_mask &&& (1 <<< pl.1) ≠ 0 then new_mask ||| (1 <<< HARVESTING_INDEX_BY_LOC pl.2)
      else new_mask) 0

/-- Number of set bits among bit positions `0..13`. -/
def bitCount14 (n : Nat) : Nat := (List.range 14).countP fun i => n.testBit i

/-! ### device.py : upload_firmware -/

/-- A parsed PT_LOAD segment (`helpers.load_pt_load`): physical target
address, payload bytes, in-memory size. -/
structure PTLoad where
  paddr : Nat
  data : List Nat
  memsz : Nat
deriving DecidableEq, Repr

inductive TLBMode where
  | STRICT
  | ORDERED_BULK
deriving DecidableEq, Repr

/-- One write issued through the multicast window during upload: a 32-bit
register write (`win.writei32`) or a segment payload write (`win.write`),
tagged with the window's ordering mode at the time of the write. -/
inductive FwEvent where
  | regWrite (off val : Nat) (mode : TLBMode)
  | segWrite (addr : Nat) (data : List Nat) (mode : TLBMode)
deriving DecidableEq, Repr

/-- The nested `remap_addr(addr, init_base)` of `upload_firmware`.  The
architecture constants `TensixMMIO.LOCAL_RAM_START`, `TensixMMIO.LOCAL_RAM_END`
and `TensixL1.SIZE` are parameters here — modelled from the spec: they live in
the `configs` module missing from the snapshot ("the architecture's fixed
local-RAM aliasing range" and "the per-core local-memory bounds").  The failed
assert is an error value. -/
def remap_addr (LOCAL_RAM_START LOCAL_RAM_END L1_SIZE addr init_base : Nat) :
    Option Nat :=
  if LOCAL_RAM_START ≤ addr ∧ addr ≤ LOCAL_RAM_END then
    let addr2 := (addr - LOCAL_RAM_START) + init_base
    if addr2 < L1_SIZE then some addr2 else none
  else some addr

/-- The segment writes of one firmware image in the loop body: empty segments
are skipped (`if not seg.data: continue`), every other segment is written at
its remapped address while the window is in ordered-bulk mode, and a failed
remap assert aborts the upload. -/
def seg_events (LOCAL_RAM_START LOCAL_RAM_END L1_SIZE init_base : Nat) :
    List PTLoad → Option (List FwEvent)
  | [] => some []
  | s :: rest =>
    if s.data.isEmpty then
      seg_events LOCAL_RAM_START LOCAL_RAM_END L1_SIZE init_base rest
    else
      match remap_addr LOCAL_RAM_START LOCAL_RAM_END L1_SIZE s.paddr init_base with
      | none => none
      | some a =>
        (seg_events LOCAL_RAM_START LOCAL_RAM_END L1_SIZE init_base rest).map
          (fun evs => FwEvent.segWrite a s.data .ORDERED_BULK :: evs)

/-- The segment writes of all firmware images in order (`for name, segs in
fws`, with `init_base` the scratch base `fw_map[name]` of each image). -/
def fws_events (LOCAL_RAM_START LOCAL_RAM_END L1_SIZE : Nat) :
    List (Nat × List PTLoad) → Option (List FwEvent)
  | [] => some []
  | (init_base, segs) :: rest =>
    match seg_events LOCAL_RAM_START LOCAL_RAM_END L1_SIZE init_base segs with
    | none => none
    | some evs =>
      (fws_events LOCAL_RAM_START LOCAL_RAM_END L1_SIZE rest).map
        (fun evs2 => evs ++ evs2)

/-- The write sequence of `upload_firmware` for one multicast column range:
a strict-mode reset-assert register write, the ordered-bulk segment writes of
every firmware image, then a strict-mode write of 0 releasing reset. -/
def upload_range_events
    (LOCAL_RAM_START LOCAL_RAM_END L1_SIZE reg_off SOFT_RESET_ALL : Nat)
    (fws : List (Nat × List PTLoad)) : Option (List FwEvent) :=
  (fws_events LOCAL_RAM_START LOCAL_RAM_END L1_SIZE fws).map
    (fun mid =>
      FwEvent.regWrite reg_off SOFT_RESET_ALL .STRICT ::
        mid ++ [FwEvent.regWrite reg_off 0 .STRICT])

/-! ### device.py : Device.reset recovery poll -/

structure DevState where
  fd_open : Bool
  bars_mapped : Bool
  path : String
deriving DecidableEq, Repr

def POLL_COUNT : Nat := 50

def POLL_INTERVAL_MS : Nat := 200

/-- Embeds `Device._close`: unmap both BAR mappings and close the descriptor. -/
def close_dev (st : DevState) : DevState :=
  { st with fd_open := false, bars_mapped := false }

/-- The re-enumeration poll loop of `Device.reset`: up to `fuel` attempts,
each sleeping one 0.2 s interval and then asking the enumeration source
(`find_dev_by_bdf`); returns the number of sleeps performed and the found
path, if any. -/
def poll_loop (find : Nat → Option String) : Nat → Nat → Nat × Option String
  | used, 0 => (used, none)
  | used, fuel + 1 =>
    match find used with
    | some p => (used + 1, some p)
    | none => poll_loop find (used + 1) fuel

inductive ResetOutcome where
  | ok (st : DevState)
  | timeout (st : DevState) (elapsed_ms : Nat)
deriving DecidableEq, Repr

/-- Embeds `Device.reset` after the reset ioctl: close the descriptor and both BAR
mappings, poll up to 50 times at 200 ms for a device file whose BDF matches,
then either reopen and finish setup, or fail with the recovery timeout. -/
def reset (find : Nat → Option String) (st : DevState) : ResetOutcome :=
  let st1 := close_dev st
  match poll_loop find 0 POLL_COUNT with
  | (_, some p) => .ok { st1 with path := p, fd_open := true, bars_mapped := true }
  | (n, none) => .timeout st1 (n * POLL_INTERVAL_MS)


/-! ### Theorems -/

theorem ldiff_two_pow_sub_one (v k : Nat) :
    Nat.ldiff v (2 ^ k - 1) = 2 ^ k * (v / 2 ^ k) := by
  have hsh : 2 ^ k * (v / 2 ^ k) = (v >>> k) <<< k := by
    rw [Nat.shiftLeft_eq, Nat.shiftRight_eq_div_pow, Nat.mul_comm]
  rw [hsh]
  apply Nat.eq_of_testBit_eq
  intro i
  rw [Nat.testBit_ldiff, Nat.testBit_two_pow_sub_one, Nat.testBit_shiftLeft,
    Nat.testBit_shiftRight]
  by_cases h : k ≤ i
  · have : ¬ i < k := by omega
    have hki : k + (i - k) = i := by omega
    simp [h, this, hki]
  · have : i < k := by omega
    simp [h, this]

theorem align_down_pow2 (v k : Nat) :
    align_down v (2 ^ k) = (v - v % 2 ^ k, v % 2 ^ k) := by
  have hbase : Nat.ldiff v (2 ^ k - 1) = v - v % 2 ^ k := by
    rw [ldiff_two_pow_sub_one]
    have := Nat.mod_add_div v (2 ^ k)
    omega
  have hrem : v - (v - v % 2 ^ k) = v % 2 ^ k := by
    have h1 : v % 2 ^ k ≤ v := Nat.mod_le v _
    omega
  simp [align_down, hbase, hrem]

set_option maxHeartbeats 2000000 in
theorem mcast_core : ∀ a < 17, ∀ b < 17, mcastSpecOK a b := by decide

/-- C1: for every Harvesting input with two disabled compute columns, the
multicast ranges produced by `TileGrid.from_harvesting` are sorted ascending,
pairwise non-overlapping inclusive `(start, end)` ranges, each a maximal run of
consecutive valid columns, and their expansions to individual columns cover
exactly the set of valid compute columns (columns `0..16` excluding the DRAM
columns `0` and `9`, the auxiliary-core column `8`, and the two harvested
columns). -/
theorem tileGrid_multicast_ranges_partition (h : Harvesting)
    (h1 : h.tensix_cols.1 ≤ 16) (h2 : h.tensix_cols.2 ≤ 16) :
    (tensix_mcast_of (tensix_cols_of h)).Pairwise (fun p q => p.2 < q.1) ∧
    (∀ p ∈ tensix_mcast_of (tensix_cols_of h), p.1 ≤ p.2 ∧
      (∀ x, p.1 ≤ x → x ≤ p.2 → validCol h x) ∧
      ¬ validCol h (p.1 - 1) ∧ ¬ validCol h (p.2 + 1)) ∧
    (∀ x, validCol h x ↔ ∃ p ∈ tensix_mcast_of (tensix_cols_of h), p.1 ≤ x ∧ x ≤ p.2) := by
  obtain ⟨⟨a, b⟩, d, e⟩ := h
  dsimp only at h1 h2
  have core := mcast_core a (by omega) b (by omega)
  obtain ⟨hpw, hmax, huni⟩ := core
  refine ⟨hpw, ?_, ?_⟩
  · intro p hp
    obtain ⟨hle, hlt, hin, hl, hr⟩ := hmax p hp
    exact ⟨hle, fun x hx1 hx2 => hin x (by omega) hx1 hx2, hl, hr⟩
  · intro x
    constructor
    · intro hv
      have hx : x ≤ 16 := hv.1
      exact (huni x (by omega)).1 hv
    · rintro ⟨p, hp, hx1, hx2⟩
      have hlt := (hmax p hp).2.1
      exact (huni x (by omega)).2 ⟨p, hp, hx1, hx2⟩

/-- Witness for C1 at the concrete harvested pair `(3, 12)` (the ranges there
are `[(1,2), (4,7), (10,11), (13,16)]`). -/
theorem tileGrid_multicast_ranges_partition_witness :
    tensix_mcast_of (tensix_cols_of ⟨(3, 12), 0, false⟩) =
      [(1, 2), (4, 7), (10, 11), (13, 16)] ∧
    ((tensix_mcast_of (tensix_cols_of ⟨(3, 12), 0, false⟩)).Pairwise
        (fun p q => p.2 < q.1) ∧
      (∀ p ∈ tensix_mcast_of (tensix_cols_of ⟨(3, 12), 0, false⟩), p.1 ≤ p.2 ∧
        (∀ x, p.1 ≤ x → x ≤ p.2 → validCol ⟨(3, 12), 0, false⟩ x) ∧
        ¬ validCol ⟨(3, 12), 0, false⟩ (p.1 - 1) ∧
        ¬ validCol ⟨(3, 12), 0, false⟩ (p.2 + 1)) ∧
      (∀ x, validCol ⟨(3, 12), 0, false⟩ x ↔
        ∃ p ∈ tensix_mcast_of (tensix_cols_of ⟨(3, 12), 0, false⟩),
          p.1 ≤ x ∧ x ≤ p.2)) :=
  ⟨by decide,
    tileGrid_multicast_ranges_partition ⟨(3, 12), 0, false⟩ (by decide) (by decide)⟩

theorem finish_ne_notReady (tensix_off dram_off : List Nat) (eth_enabled : Nat) :
    finish tensix_off dram_off eth_enabled ≠ .error .notReady := by
  unfold finish
  split
  · split
    · simp
    · simp
  · simp

/-- C7: the harvesting detector fails with the device-not-ready error if and
only if the telemetry pointer read from the scratch register is zero or lies
outside `[CSM_START, CSM_END]`; for a valid pointer no error is raised at that
step. -/
theorem get_harvesting_not_ready_iff (mem : Mem) :
    get_harvesting mem = .error .notReady ↔
      (telem_ptr mem = 0 ∨ telem_ptr mem < CSM_START ∨ CSM_END < telem_ptr mem) := by
  by_cases hinv : telem_ptr_invalid (telem_ptr mem)
  · have hiff : telem_ptr mem = 0 ∨ telem_ptr mem < CSM_START ∨ CSM_END < telem_ptr mem := by
      rcases hinv with h | h
      · exact Or.inl h
      · right; omega
    simp [get_harvesting, if_pos hinv, hiff]
  · have hiff : ¬ (telem_ptr mem = 0 ∨ telem_ptr mem < CSM_START ∨ CSM_END < telem_ptr mem) := by
      unfold telem_ptr_invalid at hinv
      push_neg at hinv
      omega
    simp [get_harvesting, if_neg hinv, hiff, finish_ne_notReady]

theorem finish_ok_iff (tensix_off dram_off : List Nat) (eth_enabled : Nat) :
    (∃ h, finish tensix_off dram_off eth_enabled = .ok h) ↔
      (tensix_off.length = 2 ∧ dram_off.length = 1) := by
  unfold finish
  split_ifs with h1 h2
  · simp [h1, h2]
  · simp [h1, h2]
  · simp [h1]

/-- C2: when the telemetry pointer is valid, the detector returns an error
(no `Harvesting` value) exactly when the derived disabled-column set does not
have size 2 or the derived disabled-bank set does not have size 1; any
returned `Harvesting` comes from sets of sizes 2 and 1, and the record
constructor `finish` succeeds only under that invariant. -/
theorem harvesting_counts_invariant (mem : Mem)
    (hready : ¬ telem_ptr_invalid (telem_ptr mem)) :
    (((tensix_disabled (tensix_enabled_of mem)).length ≠ 2 ∨
        (dram_disabled (gddr_enabled_of mem)).length ≠ 1) ↔
      ∃ e, get_harvesting mem = .error e) ∧
    (∀ h, get_harvesting mem = .ok h →
      (tensix_disabled (tensix_enabled_of mem)).length = 2 ∧
      (dram_disabled (gddr_enabled_of mem)).length = 1) ∧
    (∀ tensix_off dram_off eth_enabled,
      (∃ h, finish tensix_off dram_off eth_enabled = .ok h) ↔
      (tensix_off.length = 2 ∧ dram_off.length = 1)) := by
  have hget : get_harvesting mem =
      finish (tensix_disabled (tensix_enabled_of mem))
        (dram_disabled (gddr_enabled_of mem)) (eth_enabled_of mem) := by
    simp [get_harvesting, if_neg hready]
  refine ⟨?_, ?_, fun t d e => finish_ok_iff t d e⟩
  · by_cases hlen : (tensix_disabled (tensix_enabled_of mem)).length = 2 ∧
        (dram_disabled (gddr_enabled_of mem)).length = 1
    · obtain ⟨h, hok⟩ := (finish_ok_iff _ _ (eth_enabled_of mem)).2 hlen
      rw [hget, hok]
      simp [hlen.1, hlen.2]
    · have hno : ¬ ∃ h, finish (tensix_disabled (tensix_enabled_of mem))
          (dram_disabled (gddr_enabled_of mem)) (eth_enabled_of mem) = .ok h :=
        fun hex => hlen ((finish_ok_iff _ _ _).1 hex)
      rcases hx : finish (tensix_disabled (tensix_enabled_of mem))
          (dram_disabled (gddr_enabled_of mem)) (eth_enabled_of mem) with e | hh
      · rw [hget, hx]
        constructor
        · intro _; exact ⟨e, rfl⟩
        · intro _
          by_contra hcon
          push_neg at hcon
          exact hlen ⟨hcon.1, hcon.2⟩
      · exact absurd ⟨hh, hx⟩ hno
  · intro h hok
    rw [hget] at hok
    exact (finish_ok_iff _ _ _).1 ⟨h, hok⟩

/-- Witness for C2 at the concrete telemetry image `memWitness`. -/
theorem harvesting_counts_invariant_witness :
    ¬ telem_ptr_invalid (telem_ptr memWitness) ∧
    ((((tensix_disabled (tensix_enabled_of memWitness)).length ≠ 2 ∨
        (dram_disabled (gddr_enabled_of memWitness)).length ≠ 1) ↔
      ∃ e, get_harvesting memWitness = .error e) ∧
    (∀ h, get_harvesting memWitness = .ok h →
      (tensix_disabled (tensix_enabled_of memWitness)).length = 2 ∧
      (dram_disabled (gddr_enabled_of memWitness)).length = 1) ∧
    (∀ tensix_off dram_off eth_enabled,
      (∃ h, finish tensix_off dram_off eth_enabled = .ok h) ↔
      (tensix_off.length = 2 ∧ dram_off.length = 1))) :=
  ⟨by decide, harvesting_counts_invariant memWitness (by decide)⟩

theorem locations_nodup : HARVESTING_NOC_LOCATIONS.Nodup := by decide

theorem mem_tensix_disabled_iff (te x : Nat) :
    x ∈ tensix_disabled te ↔
      ∃ pl ∈ HARVESTING_NOC_LOCATIONS.enum,
        ((te >>> pl.1) &&& 1 == 0) = true ∧ pl.2 = x := by
  unfold tensix_disabled
  rw [List.mem_insertionSort, List.mem_filterMap]
  constructor
  · rintro ⟨pl, hin, heq⟩
    by_cases hc : ((te >>> pl.1) &&& 1 == 0) = true
    · rw [if_pos hc] at heq
      exact ⟨pl, hin, hc, Option.some.inj heq⟩
    · rw [if_neg hc] at heq
      cases heq
  · rintro ⟨pl, hin, hc, hx⟩
    exact ⟨pl, hin, by rw [if_pos hc, hx]⟩

/-- C3: the detector derives disabled compute columns by inverting the enabled
mask through the physical-to-logical table (bit `p` cleared means column
`HARVESTING_NOC_LOCATIONS[p]` disabled), derives disabled banks from the bank
mask directly (bit `b` cleared means bank `b` disabled), and on the concrete
mask `0x3FFF` with the bits at physical positions 4 and 9 cleared (the
positions whose table entries are 3 and 12) yields disabled columns
`{3, 12}`. -/
theorem harvesting_mask_reindex :
    (∀ te p (hp : p < HARVESTING_NOC_LOCATIONS.length),
      ((te >>> p) &&& 1 = 0 ↔
        HARVESTING_NOC_LOCATIONS.get ⟨p, hp⟩ ∈ tensix_disabled te)) ∧
    (∀ ge b, b < BANK_COUNT → ((ge >>> b) &&& 1 = 0 ↔ b ∈ dram_disabled ge)) ∧
    0x3FFF ^^^ ((1 <<< 4) ||| (1 <<< 9)) = 0x3DEF ∧
    tensix_disabled 0x3DEF = [3, 12] := by
  refine ⟨?_, ?_, by decide, by decide⟩
  · intro te p hp
    rw [mem_tensix_disabled_iff]
    constructor
    · intro h0
      refine ⟨(p, HARVESTING_NOC_LOCATIONS.get ⟨p, hp⟩), ?_, ?_, rfl⟩
      · rw [List.mk_mem_enum_iff_get?]
        exact List.get?_eq_get hp
      · simpa using h0
    · rintro ⟨⟨pos, loc⟩, hin, hc, hx⟩
      rw [List.mk_mem_enum_iff_get?] at hin
      obtain ⟨hlt, hgetpos⟩ := List.get?_eq_some.1 hin
      have hfin : (⟨pos, hlt⟩ : Fin HARVESTING_NOC_LOCATIONS.length) = ⟨p, hp⟩ := by
        apply (locations_nodup.get_inj_iff).1
        rw [hgetpos]
        exact hx
      have hpos : pos = p := by
        simpa using congrArg Fin.val hfin
      subst hpos
      simpa using hc
  · intro ge b hb
    unfold dram_disabled
    rw [List.mem_filter]
    simp [List.mem_range, hb]

/-- Witness for C3: bit 4 of the mask `0x3DEF` is cleared and column 3 (the
table entry at physical position 4) is disabled; bit 0 of the bank mask
`0xFE` is cleared and bank 0 is disabled. -/
theorem harvesting_mask_reindex_witness :
    ((0x3DEF >>> 4) &&& 1 = 0 ↔ 3 ∈ tensix_disabled 0x3DEF) ∧
    ((0xFE >>> 0) &&& 1 = 0 ↔ 0 ∈ dram_disabled 0xFE) :=
  ⟨harvesting_mask_reindex.1 0x3DEF 4 (by decide),
    harvesting_mask_reindex.2.1 0xFE 0 (by decide)⟩

theorem filterMap_if_enumFrom_sublist (g : Nat → Bool) :
    ∀ (l : List Nat) (n : Nat),
      ((List.enumFrom n l).filterMap fun pl =>
        if g pl.1 then some pl.2 else none).Sublist l := by
  intro l
  induction l with
  | nil => intro n; simp
  | cons a t ih =>
    intro n
    have henum : List.enumFrom n (a :: t) = (n, a) :: List.enumFrom (n + 1) t := rfl
    rw [henum, List.filterMap_cons]
    by_cases hc : g n = true
    · rw [if_pos hc]
      exact (ih (n + 1)).cons₂ a
    · rw [if_neg hc]
      exact (ih (n + 1)).cons a

theorem tensix_disabled_sorted (te : Nat) :
    (tensix_disabled te).Sorted (· ≤ ·) :=
  List.sorted_insertionSort _ _

theorem tensix_disabled_nodup (te : Nat) : (tensix_disabled te).Nodup := by
  unfold tensix_disabled
  have hperm := List.perm_insertionSort (· ≤ ·)
    (HARVESTING_NOC_LOCATIONS.enum.filterMap fun pl =>
      if (te >>> pl.1) &&& 1 == 0 then some pl.2 else none)
  refine hperm.nodup_iff.2 ?_
  exact (filterMap_if_enumFrom_sublist (fun pos => (te >>> pos) &&& 1 == 0)
    HARVESTING_NOC_LOCATIONS 0).nodup locations_nodup

theorem sorted_nodup_length_two_lt {l : List Nat}
    (hs : l.Sorted (· ≤ ·)) (hn : l.Nodup) (hlen : l.length = 2)
    (h0 : 0 < l.length) (h1 : 1 < l.length) :
    l.get ⟨0, h0⟩ < l.get ⟨1, h1⟩ := by
  obtain ⟨a, b, rfl⟩ := List.length_eq_two.1 hlen
  have hab : a ≤ b := by
    simp [List.sorted_cons] at hs
    exact hs
  have hne : a ≠ b := by
    simp [List.nodup_cons] at hn
    exact hn
  show a < b
  omega

/-- C9: a Harvesting record returned by the detector always has its two
disabled compute columns in strictly ascending order, because the derived
column set is sorted before the pair is built and distinct mask bit positions
map to distinct columns. -/
theorem harvesting_cols_strictly_ascending (mem : Mem) (h : Harvesting)
    (hok : get_harvesting mem = .ok h) :
    h.tensix_cols.1 < h.tensix_cols.2 := by
  unfold get_harvesting at hok
  split at hok
  · cases hok
  · unfold finish at hok
    by_cases h2 : (tensix_disabled (tensix_enabled_of mem)).length = 2
    · rw [dif_pos h2] at hok
      by_cases h1 : (dram_disabled (gddr_enabled_of mem)).length = 1
      · rw [dif_pos h1] at hok
        cases hok
        exact sorted_nodup_length_two_lt (tensix_disabled_sorted _)
          (tensix_disabled_nodup _) h2 _ _
      · rw [dif_neg h1] at hok
        cases hok
    · rw [dif_neg h2] at hok
      cases hok

theorem telem_ptr_memWitness : telem_ptr memWitness = CSM_START := by decide

theorem align_down_csm : align_down CSM_START TLBSize_MiB_2 = (CSM_START, 0) := by
  have h : TLBSize_MiB_2 = 2 ^ 21 := by norm_num [TLBSize_MiB_2]
  rw [h, align_down_pow2]
  norm_num [CSM_START]

theorem csm_base_memWitness : csm_base_of memWitness = CSM_START := by
  rw [csm_base_of, telem_ptr_memWitness, align_down_csm]

theorem csm_offset_memWitness : csm_offset_of memWitness = 0 := by
  rw [csm_offset_of, telem_ptr_memWitness, align_down_csm]

theorem entry_count_memWitness : entry_count_of memWitness = 2 := by
  rw [entry_count_of, csm_base_memWitness, csm_offset_memWitness]
  decide

theorem tag_entries_memWitness : tag_entries_of memWitness = [(34, 0), (36, 1)] := by
  simp only [tag_entries_of, entry_count_memWitness, csm_base_memWitness,
    csm_offset_memWitness]
  decide

theorem tensix_enabled_memWitness : tensix_enabled_of memWitness = 0x3DEF := by
  rw [tensix_enabled_of, read_tag, tag_entries_memWitness]
  simp only [entry_count_memWitness, csm_base_memWitness, csm_offset_memWitness]
  decide

theorem eth_enabled_memWitness : eth_enabled_of memWitness = 0x3FFF := by
  rw [eth_enabled_of, read_tag, tag_entries_memWitness]
  simp only [entry_count_memWitness, csm_base_memWitness, csm_offset_memWitness]
  decide

theorem gddr_enabled_memWitness : gddr_enabled_of memWitness = 0xFE := by
  rw [gddr_enabled_of, read_tag, tag_entries_memWitness]
  simp only [entry_count_memWitness, csm_base_memWitness, csm_offset_memWitness]
  decide

theorem get_harvesting_memWitness :
    get_harvesting memWitness = .ok ⟨(3, 12), 0, false⟩ := by
  have hval : ¬ telem_ptr_invalid (telem_ptr memWitness) := by decide
  simp only [get_harvesting, if_neg hval, tensix_enabled_memWitness,
    eth_enabled_memWitness, gddr_enabled_memWitness]
  rfl

/-- Witness for C9 with a concrete successful detection: the record returned
on `memWitness` is `⟨(3, 12), 0, false⟩` and its columns are ascending. -/
theorem harvesting_cols_strictly_ascending_witness :
    (⟨(3, 12), 0, false⟩ : Harvesting).tensix_cols.1 <
      (⟨(3, 12), 0, false⟩ : Harvesting).tensix_cols.2 :=
  harvesting_cols_strictly_ascending memWitness ⟨(3, 12), 0, false⟩
    get_harvesting_memWitness

/-- C6: for every value and every power-of-two alignment,
`align_down(value, alignment)` returns `(base, remainder)` with `base ≤ value`,
`base % alignment == 0`, `base + remainder == value` and
`0 ≤ remainder < alignment`. -/
theorem align_down_spec (value k : Nat) :
    (align_down value (2 ^ k)).1 ≤ value ∧
    (align_down value (2 ^ k)).1 % 2 ^ k = 0 ∧
    (align_down value (2 ^ k)).1 + (align_down value (2 ^ k)).2 = value ∧
    (align_down value (2 ^ k)).2 < 2 ^ k := by
  rw [align_down_pow2]
  have h1 : value % 2 ^ k ≤ value := Nat.mod_le _ _
  have h2 : value % 2 ^ k < 2 ^ k := Nat.mod_lt _ (Nat.pos_pow_of_pos k (by omega))
  have h3 := Nat.mod_add_div value (2 ^ k)
  refine ⟨by omega, ?_, by omega, by omega⟩
  have h4 : value - value % 2 ^ k = 2 ^ k * (value / 2 ^ k) := by omega
  simp only [h4]
  exact Nat.mul_mod_right _ _

theorem foldl_or_testBit (cond : Nat × Nat → Prop) [DecidablePred cond]
    (idx : Nat × Nat → Nat) :
    ∀ (l : List (Nat × Nat)) (acc j : Nat),
      (((l.foldl (fun a pl => if cond pl then a ||| (1 <<< idx pl) else a) acc).testBit j)
          = true) ↔
        (acc.testBit j = true ∨ ∃ pl ∈ l, cond pl ∧ idx pl = j) := by
  intro l
  induction l with
  | nil => intro acc j; simp
  | cons hd t ih =>
    intro acc j
    rw [List.foldl_cons, ih]
    by_cases hc : cond hd
    · rw [if_pos hc]
      simp only [Nat.testBit_or, Nat.one_shiftLeft, Nat.testBit_two_pow,
        Bool.or_eq_true, decide_eq_true_eq, List.mem_cons]
      constructor
      · rintro (⟨h | h⟩ | ⟨pl, hpl, hcpl, hi⟩)
        · exact Or.inl h
        · exact Or.inr ⟨hd, Or.inl rfl, hc, h⟩
        · exact Or.inr ⟨pl, Or.inr hpl, hcpl, hi⟩
      · rintro (h | ⟨pl, hpl | hpl, hcpl, hi⟩)
        · exact Or.inl (Or.inl h)
        · subst hpl; exact Or.inl (Or.inr hi)
        · exact Or.inr ⟨pl, hpl, hcpl, hi⟩
    · rw [if_neg hc]
      simp only [List.mem_cons]
      constructor
      · rintro (h | ⟨pl, hpl, hcpl, hi⟩)
        · exact Or.inl h
        · exact Or.inr ⟨pl, Or.inr hpl, hcpl, hi⟩
      · rintro (h | ⟨pl, hpl | hpl, hcpl, hi⟩)
        · exact Or.inl h
        · subst hpl; exact absurd hcpl hc
        · exact Or.inr ⟨pl, hpl, hcpl, hi⟩

theorem shuffle_testBit (raw j : Nat) :
    ((shuffle_tensix_harvesting_mask raw).testBit j = true) ↔
      ∃ pl ∈ HARVESTING_NOC_LOCATIONS.enum,
        raw &&& (1 <<< pl.1) ≠ 0 ∧ HARVESTING_INDEX_BY_LOC pl.2 = j := by
  unfold shuffle_tensix_harvesting_mask
  rw [foldl_or_testBit]
  simp

theorem and_one_shift_ne (n i : Nat) : (n &&& 1 <<< i ≠ 0) ↔ n.testBit i = true := by
  rw [Nat.one_shiftLeft, Nat.and_two_pow]
  cases h : n.testBit i <;> simp [Nat.pos_iff_ne_zero, Nat.pow_pos]

theorem index_le_13 : ∀ pl ∈ HARVESTING_NOC_LOCATIONS.enum,
    HARVESTING_INDEX_BY_LOC pl.2 ≤ 13 := by decide

theorem locations_enum_eq : HARVESTING_NOC_LOCATIONS.enum =
    [(0, 1), (1, 16), (2, 2), (3, 15), (4, 3), (5, 14), (6, 4), (7, 13),
     (8, 5), (9, 12), (10, 6), (11, 11), (12, 7), (13, 10)] := by decide

/-- C10: for every 14-bit raw mask, the reindexed mask produced by
`shuffle_tensix_harvesting_mask` is again a 14-bit mask with exactly the same
number of set bits: the physical-to-logical reindexing is a bijection on bit
positions `0..13`. -/
theorem shuffle_mask_popcount (raw : Nat) (_hraw : raw < 2 ^ 14) :
    shuffle_tensix_harvesting_mask raw < 2 ^ 14 ∧
    bitCount14 (shuffle_tensix_harvesting_mask raw) = bitCount14 raw := by
  constructor
  · by_contra hge
    push_neg at hge
    obtain ⟨i, hi14, htb⟩ := Nat.ge_two_pow_implies_high_bit_true hge
    obtain ⟨pl, hpl, _, hidx⟩ := (shuffle_testBit raw i).1 htb
    have := index_le_13 pl hpl
    omega
  · have h0 : ((shuffle_tensix_harvesting_mask raw).testBit 0 = true) ↔
        (raw &&& 1 <<< 0 ≠ 0) := by
      rw [shuffle_testBit, locations_enum_eq]; simp +decide [HARVESTING_INDEX_BY_LOC]
    have h1 : ((shuffle_tensix_harvesting_mask raw).testBit 1 = true) ↔
        (raw &&& 1 <<< 2 ≠ 0) := by
      rw [shuffle_testBit, locations_enum_eq]; simp +decide [HARVESTING_INDEX_BY_LOC]
    have h2 : ((shuffle_tensix_harvesting_mask raw).testBit 2 = true) ↔
        (raw &&& 1 <<< 4 ≠ 0) := by
      rw [shuffle_testBit, locations_enum_eq]; simp +decide [HARVESTING_INDEX_BY_LOC]
    have h3 : ((shuffle_tensix_harvesting_mask raw).testBit 3 = true) ↔
        (raw &&& 1 <<< 6 ≠ 0) := by
      rw [shuffle_testBit, locations_enum_eq]; simp +decide [HARVESTING_INDEX_BY_LOC]
    have h4 : ((shuffle_tensix_harvesting_mask raw).testBit 4 = true) ↔
        (raw &&& 1 <<< 8 ≠ 0) := by
      rw [shuffle_testBit, locations_enum_eq]; simp +decide [HARVESTING_INDEX_BY_LOC]
    have h5 : ((shuffle_tensix_harvesting_mask raw).testBit 5 = true) ↔
        (raw &&& 1 <<< 10 ≠ 0) := by
      rw [shuffle_testBit, locations_enum_eq]; simp +decide [HARVESTING_INDEX_BY_LOC]
    have h6 : ((shuffle_tensix_harvesting_mask raw).testBit 6 = true) ↔
        (raw &&& 1 <<< 12 ≠ 0) := by
      rw [shuffle_testBit, locations_enum_eq]; simp +decide [HARVESTING_INDEX_BY_LOC]
    have h7 : ((shuffle_tensix_harvesting_mask raw).testBit 7 = true) ↔
        (raw &&& 1 <<< 13 ≠ 0) := by
      rw [shuffle_testBit, locations_enum_eq]; simp +decide [HARVESTING_INDEX_BY_LOC]
    have h8 : ((shuffle_tensix_harvesting_mask raw).testBit 8 = true) ↔
        (raw &&& 1 <<< 11 ≠ 0) := by
      rw [shuffle_testBit, locations_enum_eq]; simp +decide [HARVESTING_INDEX_BY_LOC]
    have h9 : ((shuffle_tensix_harvesting_mask raw).testBit 9 = true) ↔
        (raw &&& 1 <<< 9 ≠ 0) := by
      rw [shuffle_testBit, locations_enum_eq]; simp +decide [HARVESTING_INDEX_BY_LOC]
    have h10 : ((shuffle_tensix_harvesting_mask raw).testBit 10 = true) ↔
        (raw &&& 1 <<< 7 ≠ 0) := by
      rw [shuffle_testBit, locations_enum_eq]; simp +decide [HARVESTING_INDEX_BY_LOC]
    have h11 : ((shuffle_tensix_harvesting_mask raw).testBit 11 = true) ↔
        (raw &&& 1 <<< 5 ≠ 0) := by
      rw [shuffle_testBit, locations_enum_eq]; simp +decide [HARVESTING_INDEX_BY_LOC]
    have h12 : ((shuffle_tensix_harvesting_mask raw).testBit 12 = true) ↔
        (raw &&& 1 <<< 3 ≠ 0) := by
      rw [shuffle_testBit, locations_enum_eq]; simp +decide [HARVESTING_INDEX_BY_LOC]
    have h13 : ((shuffle_tensix_harvesting_mask raw).testBit 13 = true) ↔
        (raw &&& 1 <<< 1 ≠ 0) := by
      rw [shuffle_testBit, locations_enum_eq]; simp +decide [HARVESTING_INDEX_BY_LOC]
    unfold bitCount14
    have hr : List.range 14 = [0, 1, 2, 3, 4, 5, 6, 7, 8, 9, 10, 11, 12, 13] := by decide
    rw [hr]
    simp only [List.countP_cons, List.countP_nil]
    simp only [h0, h1, h2, h3, h4, h5, h6, h7, h8, h9, h10, h11, h12, h13]
    simp only [and_one_shift_ne]
    ac_rfl

/-- Witness for C10 at the raw mask `0x210` (physical bits 4 and 9 set). -/
theorem shuffle_mask_popcount_witness :
    shuffle_tensix_harvesting_mask 0x210 < 2 ^ 14 ∧
    bitCount14 (shuffle_tensix_harvesting_mask 0x210) = bitCount14 0x210 :=
  shuffle_mask_popcount 0x210 (by decide)

/-- C5: the remap function leaves addresses outside the local-RAM alias range
unchanged, maps an in-range address to `(addr - LOCAL_RAM_START) + init_base`
when that lands inside the per-core local-memory bounds and fails fatally
otherwise, and every successfully remapped in-range address lands inside
`[init_base, init_base + L1_SIZE)`. -/
theorem remap_addr_spec (LOCAL_RAM_START LOCAL_RAM_END L1_SIZE addr init_base : Nat) :
    (¬ (LOCAL_RAM_START ≤ addr ∧ addr ≤ LOCAL_RAM_END) →
      remap_addr LOCAL_RAM_START LOCAL_RAM_END L1_SIZE addr init_base = some addr) ∧
    ((LOCAL_RAM_START ≤ addr ∧ addr ≤ LOCAL_RAM_END) →
      ((addr - LOCAL_RAM_START) + init_base < L1_SIZE →
        remap_addr LOCAL_RAM_START LOCAL_RAM_END L1_SIZE addr init_base =
          some ((addr - LOCAL_RAM_START) + init_base)) ∧
      (¬ ((addr - LOCAL_RAM_START) + init_base < L1_SIZE) →
        remap_addr LOCAL_RAM_START LOCAL_RAM_END L1_SIZE addr init_base = none) ∧
      (∀ r, remap_addr LOCAL_RAM_START LOCAL_RAM_END L1_SIZE addr init_base = some r →
        init_base ≤ r ∧ r < init_base + L1_SIZE)) := by
  unfold remap_addr
  by_cases hin : LOCAL_RAM_START ≤ addr ∧ addr ≤ LOCAL_RAM_END
  · rw [if_pos hin]
    refine ⟨fun hc => absurd hin hc, fun _ => ⟨?_, ?_, ?_⟩⟩
    · intro hlt
      rw [if_pos hlt]
    · intro hge
      rw [if_neg hge]
    · intro r hr
      by_cases hlt : (addr - LOCAL_RAM_START) + init_base < L1_SIZE
      · rw [if_pos hlt] at hr
        cases hr
        omega
      · rw [if_neg hlt] at hr
        cases hr
  · rw [if_neg hin]
    exact ⟨fun _ => rfl, fun hc => absurd hc hin⟩

/-- Witness for C5: an address inside the alias range remaps to the scratch
base plus its offset; an address outside is unchanged. -/
theorem remap_addr_spec_witness :
    remap_addr 0xFFB00000 0xFFB01FFF 0x17C000 0xFFB00040 0x3000 = some 0x3040 ∧
    remap_addr 0xFFB00000 0xFFB01FFF 0x17C000 0x5000 0x3000 = some 0x5000 :=
  ⟨((remap_addr_spec 0xFFB00000 0xFFB01FFF 0x17C000 0xFFB00040 0x3000).2
      (by decide)).1 (by decide),
    (remap_addr_spec 0xFFB00000 0xFFB01FFF 0x17C000 0x5000 0x3000).1 (by decide)⟩

theorem seg_events_spec (LS LE SZ init_base : Nat) :
    ∀ (segs : List PTLoad) (evs : List FwEvent),
      seg_events LS LE SZ init_base segs = some evs →
      (∀ e ∈ evs, ∃ s ∈ segs, s.data ≠ [] ∧ ∃ a,
        remap_addr LS LE SZ s.paddr init_base = some a ∧
        e = FwEvent.segWrite a s.data .ORDERED_BULK) ∧
      (∀ s ∈ segs, s.data ≠ [] → ∃ a,
        remap_addr LS LE SZ s.paddr init_base = some a ∧
        FwEvent.segWrite a s.data .ORDERED_BULK ∈ evs) := by
  intro segs
  induction segs with
  | nil =>
    intro evs hevs
    cases hevs
    exact ⟨by simp, by simp⟩
  | cons s rest ih =>
    intro evs hevs
    rw [seg_events] at hevs
    by_cases hemp : s.data.isEmpty
    · rw [if_pos hemp] at hevs
      obtain ⟨h1, h2⟩ := ih evs hevs
      have hnil : s.data = [] := List.isEmpty_iff.1 hemp
      constructor
      · intro e he
        obtain ⟨t, ht, hd, a, ha, hee⟩ := h1 e he
        exact ⟨t, List.mem_cons_of_mem s ht, hd, a, ha, hee⟩
      · intro t ht hd
        rcases List.mem_cons.1 ht with rfl | ht2
        · exact absurd hnil hd
        · exact h2 t ht2 hd
    · rw [if_neg hemp] at hevs
      have hnil : s.data ≠ [] := fun hh => hemp (by simp [hh])
      rcases hrm : remap_addr LS LE SZ s.paddr init_base with _ | a
      · rw [hrm] at hevs
        cases hevs
      · rw [hrm] at hevs
        rcases hrest : seg_events LS LE SZ init_base rest with _ | revs
        · rw [hrest] at hevs
          cases hevs
        · rw [hrest] at hevs
          cases hevs
          obtain ⟨h1, h2⟩ := ih revs hrest
          constructor
          · intro e he
            rcases List.mem_cons.1 he with rfl | he2
            · exact ⟨s, List.mem_cons_self s rest, hnil, a, hrm, rfl⟩
            · obtain ⟨t, ht, hd, a2, ha2, hee⟩ := h1 e he2
              exact ⟨t, List.mem_cons_of_mem s ht, hd, a2, ha2, hee⟩
          · intro t ht hd
            rcases List.mem_cons.1 ht with rfl | ht2
            · exact ⟨a, hrm, List.mem_cons_self _ _⟩
            · obtain ⟨a2, ha2, hmem⟩ := h2 t ht2 hd
              exact ⟨a2, ha2, List.mem_cons_of_mem _ hmem⟩

theorem fws_events_spec (LS LE SZ : Nat) :
    ∀ (fws : List (Nat × List PTLoad)) (mid : List FwEvent),
      fws_events LS LE SZ fws = some mid →
      (∀ e ∈ mid, ∃ init_base segs, (init_base, segs) ∈ fws ∧ ∃ s ∈ segs,
        s.data ≠ [] ∧ ∃ a, remap_addr LS LE SZ s.paddr init_base = some a ∧
        e = FwEvent.segWrite a s.data .ORDERED_BULK) ∧
      (∀ init_base segs, (init_base, segs) ∈ fws → ∀ s ∈ segs, s.data ≠ [] →
        ∃ a, remap_addr LS LE SZ s.paddr init_base = some a ∧
          FwEvent.segWrite a s.data .ORDERED_BULK ∈ mid) := by
  intro fws
  induction fws with
  | nil =>
    intro mid hmid
    cases hmid
    exact ⟨by simp, by simp⟩
  | cons hd rest ih =>
    intro mid hmid
    obtain ⟨init_base, segs⟩ := hd
    rw [fws_events] at hmid
    rcases hseg : seg_events LS LE SZ init_base segs with _ | evs
    · rw [hseg] at hmid
      cases hmid
    · rw [hseg] at hmid
      rcases hrest : fws_events LS LE SZ rest with _ | evs2
      · rw [hrest] at hmid
        cases hmid
      · rw [hrest] at hmid
        cases hmid
        obtain ⟨hs1, hs2⟩ := seg_events_spec LS LE SZ init_base segs evs hseg
        obtain ⟨hr1, hr2⟩ := ih evs2 hrest
        constructor
        · intro e he
          rcases List.mem_append.1 he with he1 | he2
          · obtain ⟨s, hsin, hd2, a, ha, hee⟩ := hs1 e he1
            exact ⟨init_base, segs, List.mem_cons_self _ _, s, hsin, hd2, a, ha, hee⟩
          · obtain ⟨ib, sg, hin, s, hsin, hd2, a, ha, hee⟩ := hr1 e he2
            exact ⟨ib, sg, List.mem_cons_of_mem _ hin, s, hsin, hd2, a, ha, hee⟩
        · intro ib sg hin s hsin hd2
          rcases List.mem_cons.1 hin with heq | hin2
          · obtain ⟨h1, h2⟩ := Prod.mk.injEq _ _ _ _ ▸ heq
            subst h1
            subst h2
            obtain ⟨a, ha, hmem⟩ := hs2 s hsin hd2
            exact ⟨a, ha, List.mem_append.2 (Or.inl hmem)⟩
          · obtain ⟨a, ha, hmem⟩ := hr2 ib sg hin2 s hsin hd2
            exact ⟨a, ha, List.mem_append.2 (Or.inr hmem)⟩

/-- C4: the writes of one multicast range are strictly ordered as one
strict-mode reset-assert register write, then the ordered-bulk writes of every
non-empty firmware segment at its remapped address (empty segments skipped),
then one strict-mode write of 0 to the reset register; nothing else appears
inside the bracket. -/
theorem upload_firmware_range_order
    (LS LE SZ reg_off SRA : Nat) (fws : List (Nat × List PTLoad))
    (evs : List FwEvent)
    (hup : upload_range_events LS LE SZ reg_off SRA fws = some evs) :
    ∃ mid,
      evs = FwEvent.regWrite reg_off SRA .STRICT ::
        mid ++ [FwEvent.regWrite reg_off 0 .STRICT] ∧
      (∀ e ∈ mid, ∃ init_base segs, (init_base, segs) ∈ fws ∧ ∃ s ∈ segs,
        s.data ≠ [] ∧ ∃ a, remap_addr LS LE SZ s.paddr init_base = some a ∧
        e = FwEvent.segWrite a s.data .ORDERED_BULK) ∧
      (∀ init_base segs, (init_base, segs) ∈ fws → ∀ s ∈ segs, s.data ≠ [] →
        ∃ a, remap_addr LS LE SZ s.paddr init_base = some a ∧
          FwEvent.segWrite a s.data .ORDERED_BULK ∈ mid) := by
  unfold upload_range_events at hup
  rcases hmid : fws_events LS LE SZ fws with _ | mid
  · rw [hmid] at hup
    cases hup
  · rw [hmid] at hup
    cases hup
    obtain ⟨h1, h2⟩ := fws_events_spec LS LE SZ fws mid hmid
    exact ⟨mid, rfl, h1, h2⟩

/-- Witness for C4: one firmware image with a single 64-byte PT_LOAD segment
inside the alias range, uploaded with scratch base `0x3000`. -/
theorem upload_firmware_range_order_witness :
    ∃ mid,
      [FwEvent.regWrite 0x1B0 0x47800 .STRICT,
        FwEvent.segWrite 0x3040 (List.replicate 64 7) .ORDERED_BULK,
        FwEvent.regWrite 0x1B0 0 .STRICT] =
        FwEvent.regWrite 0x1B0 0x47800 .STRICT ::
          mid ++ [FwEvent.regWrite 0x1B0 0 .STRICT] ∧
      (∀ e ∈ mid, ∃ init_base segs,
        (init_base, segs) ∈ [(0x3000, [PTLoad.mk 0xFFB00040 (List.replicate 64 7) 64])] ∧
        ∃ s ∈ segs, s.data ≠ [] ∧ ∃ a,
          remap_addr 0xFFB00000 0xFFB01FFF 0x17C000 s.paddr init_base = some a ∧
          e = FwEvent.segWrite a s.data .ORDERED_BULK) ∧
      (∀ init_base segs,
        (init_base, segs) ∈ [(0x3000, [PTLoad.mk 0xFFB00040 (List.replicate 64 7) 64])] →
        ∀ s ∈ segs, s.data ≠ [] → ∃ a,
          remap_addr 0xFFB00000 0xFFB01FFF 0x17C000 s.paddr init_base = some a ∧
          FwEvent.segWrite a s.data .ORDERED_BULK ∈ mid) :=
  upload_firmware_range_order 0xFFB00000 0xFFB01FFF 0x17C000 0x1B0 0x47800
    [(0x3000, [PTLoad.mk 0xFFB00040 (List.replicate 64 7) 64])]
    [FwEvent.regWrite 0x1B0 0x47800 .STRICT,
      FwEvent.segWrite 0x3040 (List.replicate 64 7) .ORDERED_BULK,
      FwEvent.regWrite 0x1B0 0 .STRICT]
    (by rfl)

theorem poll_loop_all_none (find : Nat → Option String)
    (hnone : ∀ i, find i = none) :
    ∀ (fuel used : Nat), poll_loop find used fuel = (used + fuel, none) := by
  intro fuel
  induction fuel with
  | zero => intro used; simp [poll_loop]
  | succ n ih =>
    intro used
    rw [poll_loop, hnone used, ih (used + 1)]
    have h : used + 1 + n = used + (n + 1) := by omega
    rw [h]

/-- C8: with an enumeration source that never reports the BDF, `reset`
performs the bounded wait of 50 polls at 200 ms (10 seconds total) and then
fails with the recovery timeout, leaving the descriptor closed and the BAR
mappings unmapped. -/
theorem reset_timeout_no_descriptor (find : Nat → Option String) (st : DevState)
    (hnone : ∀ i, find i = none) :
    reset find st = .timeout (close_dev st) (POLL_COUNT * POLL_INTERVAL_MS) ∧
    POLL_COUNT * POLL_INTERVAL_MS = 10000 ∧
    (close_dev st).fd_open = false ∧
    (close_dev st).bars_mapped = false := by
  refine ⟨?_, by decide, rfl, rfl⟩
  have hp : poll_loop find 0 POLL_COUNT = (POLL_COUNT, none) := by
    rw [poll_loop_all_none find hnone POLL_COUNT 0]
    norm_num
  unfold reset
  rw [hp]

/-- Witness for C8 on a source that never finds the device. -/
theorem reset_timeout_no_descriptor_witness :
    reset (fun _ => none) ⟨true, true, "dev0"⟩ =
      .timeout (close_dev ⟨true, true, "dev0"⟩) (POLL_COUNT * POLL_INTERVAL_MS) ∧
    POLL_COUNT * POLL_INTERVAL_MS = 10000 ∧
    (close_dev ⟨true, true, "dev0"⟩).fd_open = false ∧
    (close_dev ⟨true, true, "dev0"⟩).bars_mapped = false :=
  reset_timeout_no_descriptor (fun _ => none) ⟨true, true, "dev0"⟩ (fun _ => rfl)

end Blackhole
